import Mathlib

/-!
Verification of a 16-bit virtual machine (interpreter, disassembler, tracer).
Machine words are modelled as `Nat` with explicit wrapping modulo `2 ^ 16`;
fallible operations return `Except`; the Rust mutable receiver is modelled by
explicit state passing, with results that carry the final state so that the
"no mutation on error" behaviour of the source is visible.
-/

namespace SynacorVm

/-- Errors of the virtual machine, one constructor per source variant. -/
inductive Error where
  | BadBinary
  | ProgramTooLarge (n : Nat)
  | StackUnderflow
  | InvalidSrcOperand (w : Nat)
  | InvalidDstOperand (w : Nat)
  | InvalidIp (ip : Nat)
  | IllegalInstruction (w : Nat)
  | InvalidIOWord (w : Nat)
  | IOError
  | InvalidAddress (w : Nat)
deriving DecidableEq, Repr

def INDIRECT_BIT : Nat := 0b1000000000000000

def VALID_REGISTER_MASK : Nat := 0b0111111111111000

def REGISTER_MASK : Nat := 0b0000000000000111

def VALID_IO_MASK : Nat := 0b1111111100000000

/-- Bitwise complement on 16-bit words (Rust `!` on `u16`). -/
def not16 (x : Nat) : Nat := x ^^^ 0xffff

/-- Wrapping 16-bit addition (Rust `u16::wrapping_add`). -/
def wrapping_add16 (a b : Nat) : Nat := (a + b) % 65536

/-- Wrapping 16-bit multiplication (Rust `u16::wrapping_mul`). -/
def wrapping_mul16 (a b : Nat) : Nat := (a * b) % 65536

inductive VmState where
  | Running
  | Halted
deriving DecidableEq, Repr

inductive SrcOperand where
  | Immediate (val : Nat)
  | Register (reg : Nat)
deriving DecidableEq, Repr

inductive DstOperand where
  | Register (reg : Nat)
deriving DecidableEq, Repr

def SrcOperand.decode (word : Nat) : Except Error SrcOperand :=
  if word &&& INDIRECT_BIT ≠ 0 then
    if word &&& VALID_REGISTER_MASK ≠ 0 then
      .error (.InvalidSrcOperand word)
    else
      .ok (.Register (word &&& REGISTER_MASK))
  else
    .ok (.Immediate word)

def SrcOperand.decode_at (memory : List Nat) (ip : Nat) :
    Except Error SrcOperand :=
  match memory[ip]? with
  | some w => SrcOperand.decode w
  | none => .error (.InvalidIp ip)

def DstOperand.decode (word : Nat) : Except Error DstOperand :=
  if word &&& INDIRECT_BIT ≠ 0 then
    if word &&& VALID_REGISTER_MASK ≠ 0 then
      .error (.InvalidDstOperand word)
    else
      .ok (.Register (word &&& REGISTER_MASK))
  else
    .error (.InvalidDstOperand word)

def DstOperand.decode_at (memory : List Nat) (ip : Nat) :
    Except Error DstOperand :=
  match memory[ip]? with
  | some w => DstOperand.decode w
  | none => .error (.InvalidIp ip)

/-- The register-reference shape from the spec: all bits other than the low
three (and the fixed high bit 15) are clear. -/
def regShape (w : Nat) : Prop := ∀ i, 3 ≤ i → i < 15 → w.testBit i = false

instance regShape.dec (w : Nat) : Decidable (regShape w) :=
  decidable_of_iff (∀ i, i < 15 → 3 ≤ i → w.testBit i = false)
    ⟨fun h i h3 h15 => h i h15 h3, fun h i h15 h3 => h i h3 h15⟩

lemma and_indirect_eq_zero_iff (w : Nat) :
    w &&& INDIRECT_BIT = 0 ↔ w.testBit 15 = false := by
  have h : INDIRECT_BIT = 2 ^ 15 := by norm_num [INDIRECT_BIT]
  rw [h, Nat.and_two_pow]
  cases w.testBit 15 <;> simp

lemma and_register_mask (w : Nat) : w &&& REGISTER_MASK = w % 8 := by
  have h : REGISTER_MASK = 2 ^ 3 - 1 := by norm_num [REGISTER_MASK]
  rw [h, Nat.and_pow_two_sub_one_eq_mod]

lemma and_valid_register_eq_zero_iff (w : Nat) :
    w &&& VALID_REGISTER_MASK = 0 ↔ regShape w := by
  constructor
  · intro h i h3 h15
    by_contra hb
    rw [Bool.not_eq_false] at hb
    have hm : Nat.testBit VALID_REGISTER_MASK i = true := by
      interval_cases i <;> decide
    have : (w &&& VALID_REGISTER_MASK).testBit i = true := by
      simp [Nat.testBit_and, hb, hm]
    rw [h, Nat.zero_testBit] at this
    exact Bool.false_ne_true this
  · intro h
    apply Nat.eq_of_testBit_eq
    intro i
    rw [Nat.testBit_and, Nat.zero_testBit]
    rcases lt_or_ge i 3 with hi | hi
    · have hm : Nat.testBit VALID_REGISTER_MASK i = false := by
        interval_cases i <;> decide
      simp [hm]
    · rcases lt_or_ge i 15 with hi2 | hi2
      · rw [h i hi hi2]
        simp
      · have hm : Nat.testBit VALID_REGISTER_MASK i = false :=
          Nat.testBit_lt_two_pow
            (lt_of_lt_of_le (by norm_num [VALID_REGISTER_MASK])
              (Nat.pow_le_pow_right (by norm_num) hi2))
        simp [hm]

/-- C1: operand decoding is total and three-way exclusive.  For a 16-bit word
`w`: with the high bit clear, Source decoding yields `Immediate w` and
Destination decoding fails with `InvalidDstOperand w`; with the high bit set
and all bits besides the low three (and the high bit) clear, both decoders
yield `Register (w % 8)` with the index below 8; in every remaining case the
decoders fail with `InvalidSrcOperand w` / `InvalidDstOperand w`. -/
theorem operand_decode_trichotomy (w : Nat) (hw : w < 65536) :
    (w.testBit 15 = false →
      SrcOperand.decode w = .ok (.Immediate w) ∧
      DstOperand.decode w = .error (.InvalidDstOperand w)) ∧
    (w.testBit 15 = true → regShape w →
      SrcOperand.decode w = .ok (.Register (w % 8)) ∧
      DstOperand.decode w = .ok (.Register (w % 8)) ∧ w % 8 < 8) ∧
    (w.testBit 15 = true → ¬ regShape w →
      SrcOperand.decode w = .error (.InvalidSrcOperand w) ∧
      DstOperand.decode w = .error (.InvalidDstOperand w)) := by
  refine ⟨?_, ?_, ?_⟩
  · intro hbit
    have h0 : w &&& INDIRECT_BIT = 0 := (and_indirect_eq_zero_iff w).mpr hbit
    unfold SrcOperand.decode DstOperand.decode
    rw [if_neg (by simp [h0]), if_neg (by simp [h0])]
    exact ⟨rfl, rfl⟩
  · intro hbit hreg
    have h0 : w &&& INDIRECT_BIT ≠ 0 := by
      intro h
      rw [(and_indirect_eq_zero_iff w).mp h] at hbit
      exact Bool.false_ne_true hbit
    have h1 : w &&& VALID_REGISTER_MASK = 0 :=
      (and_valid_register_eq_zero_iff w).mpr hreg
    unfold SrcOperand.decode DstOperand.decode
    rw [if_pos h0, if_neg (by simp [h1]), if_pos h0, if_neg (by simp [h1]),
      and_register_mask]
    exact ⟨rfl, rfl, Nat.mod_lt _ (by norm_num)⟩
  · intro hbit hreg
    have h0 : w &&& INDIRECT_BIT ≠ 0 := by
      intro h
      rw [(and_indirect_eq_zero_iff w).mp h] at hbit
      exact Bool.false_ne_true hbit
    have h1 : w &&& VALID_REGISTER_MASK ≠ 0 := by
      intro h
      exact hreg ((and_valid_register_eq_zero_iff w).mp h)
    unfold SrcOperand.decode DstOperand.decode
    rw [if_pos h0, if_pos h1, if_pos h0, if_pos h1]
    exact ⟨rfl, rfl⟩

theorem operand_decode_trichotomy_witness :
    SrcOperand.decode 5 = .ok (.Immediate 5) ∧
    DstOperand.decode 32770 = .ok (.Register 2) :=
  ⟨((operand_decode_trichotomy 5 (by decide)).1 (by decide)).1,
   (((operand_decode_trichotomy 32770 (by decide)).2.1 (by decide)
      (by decide)).2.1)⟩

/-- C2 counterexample: no 16-bit source operand word with the top bit set ever
decodes to an `Immediate`; the claim that some such word does is false. -/
theorem src_immediate_top_bit_counterexample :
    ¬ ∃ w v, w < 65536 ∧ w.testBit 15 = true ∧
      SrcOperand.decode w = .ok (.Immediate v) := by
  rintro ⟨w, v, _, hbit, hdec⟩
  have h0 : w &&& INDIRECT_BIT ≠ 0 := by
    intro h
    rw [(and_indirect_eq_zero_iff w).mp h] at hbit
    exact Bool.false_ne_true hbit
  unfold SrcOperand.decode at hdec
  rw [if_pos h0] at hdec
  by_cases h1 : w &&& VALID_REGISTER_MASK ≠ 0
  · rw [if_pos h1] at hdec
    exact Except.noConfusion hdec
  · rw [if_neg h1] at hdec
    simp at hdec

/-- C2 amended: a 16-bit source operand word with the top bit set decodes to
`Register (w % 8)` when all the other non-index bits are clear and fails with
`InvalidSrcOperand` otherwise; it never decodes to an `Immediate`.  The whole
15-bit immediate range is reachable: every word with the top bit clear decodes
to itself as an `Immediate`. -/
theorem src_top_bit_never_immediate (w : Nat) (hw : w < 65536)
    (hbit : w.testBit 15 = true) :
    (SrcOperand.decode w = .ok (.Register (w % 8)) ∨
      SrcOperand.decode w = .error (.InvalidSrcOperand w)) ∧
    ∀ v, SrcOperand.decode w ≠ .ok (.Immediate v) := by
  have h0 : w &&& INDIRECT_BIT ≠ 0 := by
    intro h
    rw [(and_indirect_eq_zero_iff w).mp h] at hbit
    exact Bool.false_ne_true hbit
  unfold SrcOperand.decode
  rw [if_pos h0]
  by_cases h1 : w &&& VALID_REGISTER_MASK ≠ 0
  · rw [if_pos h1]
    exact ⟨Or.inr rfl, fun v h => Except.noConfusion h⟩
  · rw [if_neg h1, and_register_mask]
    refine ⟨Or.inl rfl, fun v h => ?_⟩
    simp at h

theorem src_top_bit_never_immediate_witness :
    (SrcOperand.decode 32768 = .ok (.Register 0) ∨
      SrcOperand.decode 32768 = .error (.InvalidSrcOperand 32768)) ∧
    ∀ v, SrcOperand.decode 32768 ≠ .ok (.Immediate v) :=
  src_top_bit_never_immediate 32768 (by decide) (by decide)

inductive Instruction where
  | Halt
  | Set (dst : DstOperand) (src : SrcOperand)
  | Push (src : SrcOperand)
  | Pop (dst : DstOperand)
  | Eq (dst : DstOperand) (lhs rhs : SrcOperand)
  | Gt (dst : DstOperand) (lhs rhs : SrcOperand)
  | Jmp (tgt : SrcOperand)
  | Jt (cond tgt : SrcOperand)
  | Jf (cond tgt : SrcOperand)
  | Add (dst : DstOperand) (lhs rhs : SrcOperand)
  | Mult (dst : DstOperand) (lhs rhs : SrcOperand)
  | Mod (dst : DstOperand) (lhs rhs : SrcOperand)
  | And (dst : DstOperand) (lhs rhs : SrcOperand)
  | Or (dst : DstOperand) (lhs rhs : SrcOperand)
  | Not (dst : DstOperand) (src : SrcOperand)
  | Rmem (dst : DstOperand) (src_addr : SrcOperand)
  | Wmem (dst_addr src_addr : SrcOperand)
  | Call (tgt : SrcOperand)
  | Ret
  | Out (src : SrcOperand)
  | In (dst : DstOperand)
  | Noop
deriving DecidableEq, Repr

def Instruction.decode (memory : List Nat) (ip : Nat) :
    Except Error (Nat × Instruction) :=
  match memory[ip]? with
  | none => .error (.InvalidIp ip)
  | some w =>
    match w with
    | 0 => .ok (ip + 1, .Halt)
    | 1 => do
        let dst ← DstOperand.decode_at memory (ip + 1)
        let src ← SrcOperand.decode_at memory (ip + 2)
        return (ip + 3, .Set dst src)
    | 2 => do
        let src ← SrcOperand.decode_at memory (ip + 1)
        return (ip + 2, .Push src)
    | 3 => do
        let dst ← DstOperand.decode_at memory (ip + 1)
        return (ip + 2, .Pop dst)
    | 4 => do
        let dst ← DstOperand.decode_at memory (ip + 1)
        let lhs ← SrcOperand.decode_at memory (ip + 2)
        let rhs ← SrcOperand.decode_at memory (ip + 3)
        return (ip + 4, .Eq dst lhs rhs)
    | 5 => do
        let dst ← DstOperand.decode_at memory (ip + 1)
        let lhs ← SrcOperand.decode_at memory (ip + 2)
        let rhs ← SrcOperand.decode_at memory (ip + 3)
        return (ip + 4, .Gt dst lhs rhs)
    | 6 => do
        let tgt ← SrcOperand.decode_at memory (ip + 1)
        return (ip + 2, .Jmp tgt)
    | 7 => do
        let cond ← SrcOperand.decode_at memory (ip + 1)
        let tgt ← SrcOperand.decode_at memory (ip + 2)
        return (ip + 3, .Jt cond tgt)
    | 8 => do
        let cond ← SrcOperand.decode_at memory (ip + 1)
        let tgt ← SrcOperand.decode_at memory (ip + 2)
        return (ip + 3, .Jf cond tgt)
    | 9 => do
        let dst ← DstOperand.decode_at memory (ip + 1)
        let lhs ← SrcOperand.decode_at memory (ip + 2)
        let rhs ← SrcOperand.decode_at memory (ip + 3)
        return (ip + 4, .Add dst lhs rhs)
    | 10 => do
        let dst ← DstOperand.decode_at memory (ip + 1)
        let lhs ← SrcOperand.decode_at memory (ip + 2)
        let rhs ← SrcOperand.decode_at memory (ip + 3)
        return (ip + 4, .Mult dst lhs rhs)
    | 11 => do
        let dst ← DstOperand.decode_at memory (ip + 1)
        let lhs ← SrcOperand.decode_at memory (ip + 2)
        let rhs ← SrcOperand.decode_at memory (ip + 3)
        return (ip + 4, .Mod dst lhs rhs)
    | 12 => do
        let dst ← DstOperand.decode_at memory (ip + 1)
        let lhs ← SrcOperand.decode_at memory (ip + 2)
        let rhs ← SrcOperand.decode_at memory (ip + 3)
        return (ip + 4, .And dst lhs rhs)
    | 13 => do
        let dst ← DstOperand.decode_at memory (ip + 1)
        let lhs ← SrcOperand.decode_at memory (ip + 2)
        let rhs ← SrcOperand.decode_at memory (ip + 3)
        return (ip + 4, .Or dst lhs rhs)
    | 14 => do
        let dst ← DstOperand.decode_at memory (ip + 1)
        let src ← SrcOperand.decode_at memory (ip + 2)
        return (ip + 3, .Not dst src)
    | 15 => do
        let dst ← DstOperand.decode_at memory (ip + 1)
        let src ← SrcOperand.decode_at memory (ip + 2)
        return (ip + 3, .Rmem dst src)
    | 16 => do
        let dst ← SrcOperand.decode_at memory (ip + 1)
        let src ← SrcOperand.decode_at memory (ip + 2)
        return (ip + 3, .Wmem dst src)
    | 17 => do
        let tgt ← SrcOperand.decode_at memory (ip + 1)
        return (ip + 2, .Call tgt)
    | 18 => .ok (ip + 1, .Ret)
    | 19 => do
        let src ← SrcOperand.decode_at memory (ip + 1)
        return (ip + 2, .Out src)
    | 20 => do
        let dst ← DstOperand.decode_at memory (ip + 1)
        return (ip + 2, .In dst)
    | 21 => .ok (ip + 1, .Noop)
    | word => .error (.IllegalInstruction word)

structure Vm where
  memory : List Nat
  registers : List Nat
  ip : Nat
  stack : List Nat
deriving DecidableEq, Repr

def Vm.new : Vm :=
  { memory := List.replicate 32768 0
    registers := List.replicate 8 0
    ip := 0
    stack := [] }

/-- Rust `Vm::load` on a `&mut self` receiver: the pair carries the final
state of the receiver, which is untouched when the size check fails. -/
def Vm.load (vm : Vm) (program : List Nat) : Except Error Unit × Vm :=
  if program.length > vm.memory.length then
    (.error (.ProgramTooLarge program.length), vm)
  else
    (.ok (),
      { vm with memory :=
          program ++ List.replicate (vm.memory.length - program.length) 0 })

def Vm.decode (vm : Vm) (addr : Nat) : Except Error (Nat × Instruction) :=
  Instruction.decode vm.memory addr

def Vm.decode_next (vm : Vm) : Except Error (Nat × Instruction) :=
  vm.decode vm.ip

def Vm.read_src (vm : Vm) (operand : SrcOperand) : Nat :=
  match operand with
  | .Immediate val => val
  | .Register reg => vm.registers.getD reg 0

def Vm.write_dst (vm : Vm) (operand : DstOperand) (word : Nat) : Vm :=
  match operand with
  | .Register reg => { vm with registers := vm.registers.set reg word }

def Vm.read_indirect (vm : Vm) (ptr : Nat) : Except Error Nat :=
  match vm.memory[ptr]? with
  | some w => .ok w
  | none => .error (.InvalidAddress ptr)

def Vm.write_indirect (vm : Vm) (ptr : Nat) (word : Nat) :
    Except Error Vm :=
  if ptr < vm.memory.length then
    .ok { vm with memory := vm.memory.set ptr word }
  else
    .error (.InvalidAddress ptr)

/-- The byte-read loop of the `In` instruction: bytes are taken one at a time
from the reader, carriage returns (13) are discarded and the read retried;
a failed read (exhausted input) is an `IOError`. -/
def readByte : List Nat → Except Error (Nat × List Nat)
  | [] => .error .IOError
  | b :: rest => if b = 13 then readByte rest else .ok (b, rest)

/-- Outcome of one `step` of the interpreter: normal completion with a machine
state, a VM error, or a Rust panic (reachable only through `Mod` with a zero
divisor, where the source computes an unguarded `%`). -/
inductive StepOut where
  | ok (st : VmState)
  | err (e : Error)
  | panicked
deriving DecidableEq, Repr

/-- Result of `Vm::step` on a `&mut self` receiver plus its reader and
writer: the final receiver state, the input left in the reader and the bytes
written to the writer. -/
structure StepRes where
  out : StepOut
  vm : Vm
  input : List Nat
  output : List Nat
deriving DecidableEq, Repr

def Vm.step (vm : Vm) (input : List Nat) : StepRes :=
  match vm.decode_next with
  | .error e => ⟨.err e, vm, input, []⟩
  | .ok (new_ip, instr) =>
    match instr with
    | .Halt => ⟨.ok .Halted, vm, input, []⟩
    | .Set dst src =>
        ⟨.ok .Running,
          { vm.write_dst dst (vm.read_src src) with ip := new_ip },
          input, []⟩
    | .Push src =>
        ⟨.ok .Running,
          { vm with stack := vm.read_src src :: vm.stack, ip := new_ip },
          input, []⟩
    | .Pop dst =>
        match vm.stack with
        | val :: rest =>
            ⟨.ok .Running,
              { vm.write_dst dst val with stack := rest, ip := new_ip },
              input, []⟩
        | [] => ⟨.err .StackUnderflow, vm, input, []⟩
    | .Eq dst lhs rhs =>
        ⟨.ok .Running,
          { vm.write_dst dst
              (if vm.read_src lhs = vm.read_src rhs then 1 else 0) with
            ip := new_ip },
          input, []⟩
    | .Gt dst lhs rhs =>
        ⟨.ok .Running,
          { vm.write_dst dst
              (if vm.read_src lhs > vm.read_src rhs then 1 else 0) with
            ip := new_ip },
          input, []⟩
    | .Jmp tgt => ⟨.ok .Running, { vm with ip := vm.read_src tgt }, input, []⟩
    | .Jt cond tgt =>
        ⟨.ok .Running,
          { vm with ip :=
              if vm.read_src cond ≠ 0 then vm.read_src tgt else new_ip },
          input, []⟩
    | .Jf cond tgt =>
        ⟨.ok .Running,
          { vm with ip :=
              if vm.read_src cond = 0 then vm.read_src tgt else new_ip },
          input, []⟩
    | .Add dst lhs rhs =>
        ⟨.ok .Running,
          { vm.write_dst dst
              (wrapping_add16 (vm.read_src lhs) (vm.read_src rhs) &&&
                not16 INDIRECT_BIT) with
            ip := new_ip },
          input, []⟩
    | .Mult dst lhs rhs =>
        ⟨.ok .Running,
          { vm.write_dst dst
              (wrapping_mul16 (vm.read_src lhs) (vm.read_src rhs) &&&
                not16 INDIRECT_BIT) with
            ip := new_ip },
          input, []⟩
    | .Mod dst lhs rhs =>
        if vm.read_src rhs = 0 then
          ⟨.panicked, vm, input, []⟩
        else
          ⟨.ok .Running,
            { vm.write_dst dst (vm.read_src lhs % vm.read_src rhs) with
              ip := new_ip },
            input, []⟩
    | .And dst lhs rhs =>
        ⟨.ok .Running,
          { vm.write_dst dst (vm.read_src lhs &&& vm.read_src rhs) with
            ip := new_ip },
          input, []⟩
    | .Or dst lhs rhs =>
        ⟨.ok .Running,
          { vm.write_dst dst (vm.read_src lhs ||| vm.read_src rhs) with
            ip := new_ip },
          input, []⟩
    | .Not dst src =>
        ⟨.ok .Running,
          { vm.write_dst dst (not16 (vm.read_src src) &&& not16 INDIRECT_BIT)
              with ip := new_ip },
          input, []⟩
    | .Rmem dst src_addr =>
        match vm.read_indirect (vm.read_src src_addr) with
        | .ok w =>
            ⟨.ok .Running, { vm.write_dst dst w with ip := new_ip },
              input, []⟩
        | .error e => ⟨.err e, vm, input, []⟩
    | .Wmem dst_addr src_addr =>
        match vm.write_indirect (vm.read_src dst_addr)
            (vm.read_src src_addr) with
        | .ok vm2 => ⟨.ok .Running, { vm2 with ip := new_ip }, input, []⟩
        | .error e => ⟨.err e, vm, input, []⟩
    | .Call tgt =>
        ⟨.ok .Running,
          { vm with stack := new_ip % 65536 :: vm.stack, ip := vm.read_src tgt },
          input, []⟩
    | .Ret =>
        match vm.stack with
        | ret_ip :: rest =>
            ⟨.ok .Running, { vm with stack := rest, ip := ret_ip },
              input, []⟩
        | [] => ⟨.ok .Halted, vm, input, []⟩
    | .Out src =>
        let byte := vm.read_src src
        if byte &&& VALID_IO_MASK ≠ 0 then
          ⟨.err (.InvalidIOWord byte), vm, input, []⟩
        else
          ⟨.ok .Running, { vm with ip := new_ip }, input, [byte % 256]⟩
    | .In dst =>
        match readByte input with
        | .ok (b, rest) =>
            ⟨.ok .Running, { vm.write_dst dst b with ip := new_ip },
              rest, []⟩
        | .error e => ⟨.err e, vm, [], []⟩
    | .Noop => ⟨.ok .Running, { vm with ip := new_ip }, input, []⟩

deriving instance DecidableEq for Except

lemma not16_indirect : not16 INDIRECT_BIT = 32767 := by decide

/-- C3: `Add` and `Mult` store the wrapping 16-bit sum / product with the
high tag bit masked off, `Not` stores the masked bitwise complement, and all
three results lie below `32768`, for every pair of 16-bit inputs, including
the wraparound boundary. -/
theorem add_mult_not_masked (vm : Vm) (input : List Nat) (n : Nat) :
    (∀ dst lhs rhs, vm.decode_next = .ok (n, .Add dst lhs rhs) →
      vm.step input =
        ⟨.ok .Running,
          { vm.write_dst dst
              ((vm.read_src lhs + vm.read_src rhs) % 65536 &&& 32767) with
            ip := n },
          input, []⟩ ∧
      (vm.read_src lhs + vm.read_src rhs) % 65536 &&& 32767 < 32768) ∧
    (∀ dst lhs rhs, vm.decode_next = .ok (n, .Mult dst lhs rhs) →
      vm.step input =
        ⟨.ok .Running,
          { vm.write_dst dst
              (vm.read_src lhs * vm.read_src rhs % 65536 &&& 32767) with
            ip := n },
          input, []⟩ ∧
      vm.read_src lhs * vm.read_src rhs % 65536 &&& 32767 < 32768) ∧
    (∀ dst src, vm.decode_next = .ok (n, .Not dst src) →
      vm.step input =
        ⟨.ok .Running,
          { vm.write_dst dst (not16 (vm.read_src src) &&& 32767) with
            ip := n },
          input, []⟩ ∧
      not16 (vm.read_src src) &&& 32767 < 32768) := by
  refine ⟨?_, ?_, ?_⟩
  · intro dst lhs rhs h
    refine ⟨?_, ?_⟩
    · unfold Vm.step
      rw [h]
      simp [wrapping_add16, not16_indirect]
    · have := @Nat.and_le_right ((vm.read_src lhs + vm.read_src rhs) % 65536)
        32767
      omega
  · intro dst lhs rhs h
    refine ⟨?_, ?_⟩
    · unfold Vm.step
      rw [h]
      simp [wrapping_mul16, not16_indirect]
    · have := @Nat.and_le_right (vm.read_src lhs * vm.read_src rhs % 65536)
        32767
      omega
  · intro dst src h
    refine ⟨?_, ?_⟩
    · unfold Vm.step
      rw [h]
      simp [not16_indirect]
    · have := @Nat.and_le_right (not16 (vm.read_src src)) 32767
      omega

theorem add_mult_not_masked_witness :
    Vm.step ⟨[9, 32768, 32769, 32770], [0, 32767, 5, 0, 0, 0, 0, 0], 0, []⟩
        [] =
      ⟨.ok .Running,
        { Vm.write_dst
            ⟨[9, 32768, 32769, 32770], [0, 32767, 5, 0, 0, 0, 0, 0], 0, []⟩
            (.Register 0)
            ((Vm.read_src
                ⟨[9, 32768, 32769, 32770], [0, 32767, 5, 0, 0, 0, 0, 0], 0,
                  []⟩ (.Register 1) +
              Vm.read_src
                ⟨[9, 32768, 32769, 32770], [0, 32767, 5, 0, 0, 0, 0, 0], 0,
                  []⟩ (.Register 2)) % 65536 &&& 32767) with
          ip := 4 },
        [], []⟩ ∧
    (Vm.read_src
        ⟨[9, 32768, 32769, 32770], [0, 32767, 5, 0, 0, 0, 0, 0], 0, []⟩
        (.Register 1) +
      Vm.read_src
        ⟨[9, 32768, 32769, 32770], [0, 32767, 5, 0, 0, 0, 0, 0], 0, []⟩
        (.Register 2)) % 65536 &&& 32767 < 32768 :=
  (add_mult_not_masked
    ⟨[9, 32768, 32769, 32770], [0, 32767, 5, 0, 0, 0, 0, 0], 0, []⟩ [] 4).1
    (.Register 0) (.Register 1) (.Register 2) (by decide)

/-- C4: with an empty operand stack, `Ret` halts the machine with the state
left unchanged, while `Pop` fails with `StackUnderflow`; the outcomes are
distinct. -/
theorem ret_halts_pop_underflows (vm : Vm) (input : List Nat)
    (hstack : vm.stack = []) :
    (∀ n, vm.decode_next = .ok (n, .Ret) →
      vm.step input = ⟨.ok .Halted, vm, input, []⟩) ∧
    (∀ n dst, vm.decode_next = .ok (n, .Pop dst) →
      vm.step input = ⟨.err .StackUnderflow, vm, input, []⟩) := by
  constructor
  · intro n h
    unfold Vm.step
    rw [h, hstack]
  · intro n dst h
    unfold Vm.step
    rw [h, hstack]

theorem ret_halts_pop_underflows_witness :
    Vm.step ⟨[18], [0, 0, 0, 0, 0, 0, 0, 0], 0, []⟩ [] =
      ⟨.ok .Halted, ⟨[18], [0, 0, 0, 0, 0, 0, 0, 0], 0, []⟩, [], []⟩ ∧
    Vm.step ⟨[3, 32768], [0, 0, 0, 0, 0, 0, 0, 0], 0, []⟩ [] =
      ⟨.err .StackUnderflow, ⟨[3, 32768], [0, 0, 0, 0, 0, 0, 0, 0], 0, []⟩,
        [], []⟩ :=
  ⟨(ret_halts_pop_underflows ⟨[18], [0, 0, 0, 0, 0, 0, 0, 0], 0, []⟩ []
      rfl).1 1 rfl,
   (ret_halts_pop_underflows ⟨[3, 32768], [0, 0, 0, 0, 0, 0, 0, 0], 0, []⟩ []
      rfl).2 2 (.Register 0) rfl⟩

/-- C10: a `Mod` instruction whose divisor operand evaluates to zero performs
an unguarded remainder and panics rather than returning a VM error; with a
nonzero divisor, `step` commits the exact unsigned remainder to the
destination register. -/
theorem mod_zero_divisor_panics (vm : Vm) (input : List Nat) (n : Nat)
    (dst : DstOperand) (lhs rhs : SrcOperand)
    (h : vm.decode_next = .ok (n, .Mod dst lhs rhs)) :
    (vm.read_src rhs = 0 → vm.step input = ⟨.panicked, vm, input, []⟩) ∧
    (vm.read_src rhs ≠ 0 →
      vm.step input =
        ⟨.ok .Running,
          { vm.write_dst dst (vm.read_src lhs % vm.read_src rhs) with
            ip := n },
          input, []⟩) := by
  constructor <;> intro hz <;> unfold Vm.step <;> rw [h] <;> simp [hz]

theorem mod_zero_divisor_panics_witness :
    Vm.step ⟨[11, 32768, 32769, 32770], [9, 7, 0, 0, 0, 0, 0, 0], 0, []⟩ [] =
      ⟨.panicked, ⟨[11, 32768, 32769, 32770], [9, 7, 0, 0, 0, 0, 0, 0], 0,
        []⟩, [], []⟩ ∧
    Vm.step ⟨[11, 32768, 32769, 32770], [9, 7, 3, 0, 0, 0, 0, 0], 0, []⟩ [] =
      ⟨.ok .Running, ⟨[11, 32768, 32769, 32770], [1, 7, 3, 0, 0, 0, 0, 0], 4,
        []⟩, [], []⟩ :=
  ⟨(mod_zero_divisor_panics
      ⟨[11, 32768, 32769, 32770], [9, 7, 0, 0, 0, 0, 0, 0], 0, []⟩ [] 4
      (.Register 0) (.Register 1) (.Register 2) rfl).1 rfl,
   (mod_zero_divisor_panics
      ⟨[11, 32768, 32769, 32770], [9, 7, 3, 0, 0, 0, 0, 0], 0, []⟩ [] 4
      (.Register 0) (.Register 1) (.Register 2) rfl).2 (by decide)⟩

/-- C5: whenever `step` returns an error — decode-time or execution-time —
no partial-instruction state is left: memory, registers, operand stack and
instruction pointer all keep exactly the values they had before the call. -/
theorem step_error_no_partial_state (vm : Vm) (input : List Nat) (e : Error)
    (h : (vm.step input).out = .err e) :
    (vm.step input).vm.memory = vm.memory ∧
    (vm.step input).vm.registers = vm.registers ∧
    (vm.step input).vm.stack = vm.stack ∧
    (vm.step input).vm.ip = vm.ip := by
  have hs : (vm.step input).vm = vm := by
    unfold Vm.step at h ⊢
    rcases hd : vm.decode_next with e2 | ⟨new_ip, instr⟩ <;>
      simp only [hd] at h ⊢ <;> try rfl
    cases instr
    case Pop dst =>
      rcases hstk : vm.stack with _ | ⟨v, rest⟩ <;>
        simp only [hstk] at h ⊢ <;> first | rfl | simp at h
    case Mod dst lhs rhs =>
      by_cases hz : vm.read_src rhs = 0 <;>
        [simp only [if_pos hz] at h; simp only [if_neg hz] at h] <;>
        simp at h
    case Rmem dst src_addr =>
      rcases hri : vm.read_indirect (vm.read_src src_addr) with e2 | w <;>
        simp only [hri] at h ⊢ <;> first | rfl | simp at h
    case Wmem dst_addr src_addr =>
      rcases hwi : vm.write_indirect (vm.read_src dst_addr)
          (vm.read_src src_addr) with e2 | vm2 <;>
        simp only [hwi] at h ⊢ <;> first | rfl | simp at h
    case Ret =>
      rcases hstk : vm.stack with _ | ⟨v, rest⟩ <;>
        simp only [hstk] at h ⊢ <;> first | rfl | simp at h
    case Out src =>
      by_cases hio : vm.read_src src &&& VALID_IO_MASK ≠ 0 <;>
        [simp only [if_pos hio] at h ⊢; simp only [if_neg hio] at h ⊢] <;>
        first | rfl | simp at h
    case In dst =>
      rcases hrb : readByte input with e2 | ⟨b, rest⟩ <;>
        simp only [hrb] at h ⊢ <;> first | rfl | simp at h
    all_goals simp at h
  rw [hs]
  exact ⟨rfl, rfl, rfl, rfl⟩

theorem step_error_no_partial_state_witness :
    ((Vm.step ⟨[3, 32768], [0, 0, 0, 0, 0, 0, 0, 0], 0, []⟩ []).out =
        .err .StackUnderflow) ∧
    (Vm.step ⟨[3, 32768], [0, 0, 0, 0, 0, 0, 0, 0], 0, []⟩ []).vm.memory =
        [3, 32768] ∧
    (Vm.step ⟨[3, 32768], [0, 0, 0, 0, 0, 0, 0, 0], 0, []⟩
        []).vm.registers = [0, 0, 0, 0, 0, 0, 0, 0] ∧
    (Vm.step ⟨[3, 32768], [0, 0, 0, 0, 0, 0, 0, 0], 0, []⟩ []).vm.stack =
        [] ∧
    (Vm.step ⟨[3, 32768], [0, 0, 0, 0, 0, 0, 0, 0], 0, []⟩ []).vm.ip = 0 :=
  ⟨by decide,
    step_error_no_partial_state ⟨[3, 32768], [0, 0, 0, 0, 0, 0, 0, 0], 0, []⟩
      [] .StackUnderflow (by decide)⟩

/-- C6: `load` fails with `ProgramTooLarge` exactly when the program exceeds
32,768 words, leaving the word store untouched in that case; on success,
memory word `i` equals `program[i]` below the program length and `0` at every
remaining address, and the address space remains exactly 32,768 words. -/
theorem load_bounds_and_zero_fill (vm : Vm) (program : List Nat)
    (hmem : vm.memory.length = 32768) :
    ((vm.load program).1 = .error (.ProgramTooLarge program.length) ↔
      32768 < program.length) ∧
    (32768 < program.length → (vm.load program).2 = vm) ∧
    (program.length ≤ 32768 →
      (vm.load program).2.memory.length = 32768 ∧
      (∀ i, i < program.length →
        (vm.load program).2.memory[i]? = program[i]?) ∧
      (∀ i, program.length ≤ i → i < 32768 →
        (vm.load program).2.memory[i]? = some 0)) := by
  unfold Vm.load
  rw [hmem]
  by_cases hgt : 32768 < program.length
  · rw [if_pos hgt]
    refine ⟨⟨fun _ => hgt, fun _ => rfl⟩, fun _ => rfl, fun hle => ?_⟩
    omega
  · rw [if_neg hgt]
    refine ⟨⟨fun hcontra => ?_, fun hh => absurd hh hgt⟩,
      fun hh => absurd hh hgt, fun hle => ⟨?_, fun i hi => ?_, ?_⟩⟩
    · exact Except.noConfusion hcontra
    · simp
      omega
    · rw [List.getElem?_append]
      exact if_pos hi
    · intro i hlen hlt
      rw [List.getElem?_append_right hlen, List.getElem?_replicate]
      rw [if_pos (by omega)]

theorem load_bounds_and_zero_fill_witness :
    ((Vm.new.load [5, 6]).1 =
        .error (.ProgramTooLarge (List.length [5, 6])) ↔
      32768 < List.length [5, 6]) ∧
    (32768 < List.length [5, 6] → (Vm.new.load [5, 6]).2 = Vm.new) ∧
    (List.length [5, 6] ≤ 32768 →
      (Vm.new.load [5, 6]).2.memory.length = 32768 ∧
      (∀ i, i < List.length [5, 6] →
        (Vm.new.load [5, 6]).2.memory[i]? = [5, 6][i]?) ∧
      (∀ i, List.length [5, 6] ≤ i → i < 32768 →
        (Vm.new.load [5, 6]).2.memory[i]? = some 0)) :=
  load_bounds_and_zero_fill Vm.new [5, 6] (List.length_replicate 32768 0)

lemma except_bind_ok {ε α β : Type} (x : Except ε α) (f : α → Except ε β)
    (b : β) : (x >>= f) = .ok b ↔ ∃ a, x = .ok a ∧ f a = .ok b := by
  cases x with
  | error e => simp [Bind.bind, Except.bind]
  | ok a => simp [Bind.bind, Except.bind]

lemma except_map_ok {ε α β : Type} (f : α → β) (x : Except ε α) (b : β) :
    (f <$> x) = .ok b ↔ ∃ a, x = .ok a ∧ f a = b := by
  cases x with
  | error e => simp [Functor.map, Except.map]
  | ok a => simp [Functor.map, Except.map]

/-- Every successful decode advances the address: the next address is
strictly beyond the opcode address. -/
lemma decode_ok_lt (memory : List Nat) (ip : Nat) (p : Nat × Instruction)
    (h : Instruction.decode memory ip = .ok p) : ip < p.1 := by
  unfold Instruction.decode at h
  split at h
  · exact absurd h (by simp)
  · split at h <;>
      first
        | exact Except.noConfusion h
        | (simp only [except_bind_ok, except_map_ok, pure, Except.pure,
             Except.ok.injEq] at h
           repeat obtain ⟨_, -, h⟩ := h
           try subst h
           simp <;> omega)

inductive AsmItem where
  | Instruction (instr : Instruction)
  | Value (w : Nat)
deriving DecidableEq, Repr

structure ImageMap where
  stmts : List (Nat × AsmItem)
  labels : List (Nat × String)
  origins : List Nat
deriving DecidableEq, Repr

structure DisAsmOpts where
  autolabel : Bool
  line_addrs : Bool
  initial_labels : Option (List (Nat × String))
deriving DecidableEq, Repr

/-- The `HashMap::entry(..).or_insert_with(..)` pattern on an association
list: insert only when the key is absent; the flag reports whether the
closure ran (whether an insertion happened). -/
def entry_or_insert (labels : List (Nat × String)) (key : Nat)
    (val : String) : List (Nat × String) × Bool :=
  match labels.lookup key with
  | some _ => (labels, false)
  | none => ((key, val) :: labels, true)

def ImageMap.add_labels (ip : Nat) (instr : Instruction)
    (labels : List (Nat × String)) (origins : List Nat)
    (next_label : Nat) : List (Nat × String) × List Nat × Nat :=
  match instr with
  | .Jmp (.Immediate dst) =>
      let r := entry_or_insert labels dst ("lbl" ++ toString next_label)
      (r.1, (ip + 1) :: origins, if r.2 then next_label + 1 else next_label)
  | .Jt _ (.Immediate dst) =>
      let r := entry_or_insert labels dst ("lbl" ++ toString next_label)
      (r.1, (ip + 2) :: origins, if r.2 then next_label + 1 else next_label)
  | .Jf _ (.Immediate dst) =>
      let r := entry_or_insert labels dst ("lbl" ++ toString next_label)
      (r.1, (ip + 2) :: origins, if r.2 then next_label + 1 else next_label)
  | .Call (.Immediate dst) =>
      let r := entry_or_insert labels dst ("fn" ++ toString next_label)
      (r.1, (ip + 1) :: origins, if r.2 then next_label + 1 else next_label)
  | _ => (labels, origins, next_label)

/-- The sweep loop of `ImageMap::new`, with the loop's progress made
explicit as a fuel argument; `memory.length - ip` never exceeds the fuel in
any reachable call, so the loop and this recursion agree. -/
def ImageMap.newGo (memory : List Nat) (autolabel : Bool) :
    Nat → Nat → List (Nat × String) → List Nat → Nat → ImageMap
  | 0, _, labels, origins, _ => ⟨[], labels, origins⟩
  | fuel + 1, ip, labels, origins, next_label =>
    if ip < memory.length then
      match Instruction.decode memory ip with
      | .ok (new_ip, instr) =>
          let st :=
            if autolabel then
              ImageMap.add_labels ip instr labels origins next_label
            else (labels, origins, next_label)
          let rest := ImageMap.newGo memory autolabel fuel new_ip st.1
            st.2.1 st.2.2
          ⟨(ip, .Instruction instr) :: rest.stmts, rest.labels, rest.origins⟩
      | .error _ =>
          let rest := ImageMap.newGo memory autolabel fuel (ip + 1) labels
            origins next_label
          ⟨(ip, .Value (memory.getD ip 0)) :: rest.stmts, rest.labels,
            rest.origins⟩
    else ⟨[], labels, origins⟩

def ImageMap.new (memory : List Nat) (opts : DisAsmOpts) : ImageMap :=
  ImageMap.newGo memory opts.autolabel memory.length 0
    (opts.initial_labels.getD []) [] 0

/-- The width in words of the item recorded at an address: the decoder's
advance on success, one word on failure. -/
def itemWidth (memory : List Nat) (addr : Nat) : Nat :=
  match Instruction.decode memory addr with
  | .ok (new_ip, _) => new_ip - addr
  | .error _ => 1

lemma itemWidth_pos (memory : List Nat) (addr : Nat) :
    0 < itemWidth memory addr := by
  unfold itemWidth
  split
  · next p heq =>
      have := decode_ok_lt memory addr _ heq
      omega
  · omega

lemma newGo_stmts_nil (memory : List Nat) (auto : Bool) (fuel ip : Nat)
    (labels : List (Nat × String)) (origins : List Nat) (nl : Nat)
    (hip : memory.length ≤ ip) :
    (ImageMap.newGo memory auto fuel ip labels origins nl).stmts = [] := by
  cases fuel with
  | zero => rfl
  | succ fuel => simp [ImageMap.newGo, Nat.not_lt.mpr hip]

lemma newGo_stmts_head (memory : List Nat) (auto : Bool) (fuel ip : Nat)
    (labels : List (Nat × String)) (origins : List Nat) (nl : Nat)
    (hfuel : memory.length ≤ ip + fuel) (hip : ip < memory.length) :
    ∃ item rest,
      (ImageMap.newGo memory auto fuel ip labels origins nl).stmts =
        (ip, item) :: rest := by
  cases fuel with
  | zero => omega
  | succ fuel =>
      rw [ImageMap.newGo, if_pos hip]
      rcases hd : Instruction.decode memory ip with e | ⟨new_ip, instr⟩ <;>
        simp

lemma newGo_chain (memory : List Nat) (auto : Bool) (fuel : Nat) :
    ∀ ip labels origins nl, memory.length ≤ ip + fuel →
      List.Chain' (fun p q => q.1 = p.1 + itemWidth memory p.1)
        (ImageMap.newGo memory auto fuel ip labels origins nl).stmts := by
  induction fuel with
  | zero => intro ip labels origins nl hfuel; exact List.chain'_nil
  | succ fuel ih =>
      intro ip labels origins nl hfuel
      by_cases hip : ip < memory.length
      · rw [ImageMap.newGo, if_pos hip]
        rcases hd : Instruction.decode memory ip with e | ⟨new_ip, instr⟩
        · simp only []
          rw [List.chain'_cons']
          constructor
          · intro q hq
            by_cases hnew : ip + 1 < memory.length
            · obtain ⟨item, rest, hr⟩ := newGo_stmts_head memory auto fuel
                (ip + 1) labels origins nl (by omega) hnew
              rw [hr] at hq
              simp at hq
              subst hq
              simp [itemWidth, hd]
            · rw [newGo_stmts_nil memory auto fuel (ip + 1) labels origins
                nl (by omega)] at hq
              simp at hq
          · exact ih (ip + 1) labels origins nl (by omega)
        · have hlt : ip < new_ip := decode_ok_lt memory ip _ hd
          simp only []
          rw [List.chain'_cons']
          constructor
          · intro q hq
            by_cases hnew : new_ip < memory.length
            · obtain ⟨item, rest, hr⟩ := newGo_stmts_head memory auto fuel
                new_ip _ _ _ (by omega) hnew
              rw [hr] at hq
              simp at hq
              subst hq
              simp [itemWidth, hd]
              omega
            · rw [newGo_stmts_nil memory auto fuel new_ip _ _ _
                (by omega)] at hq
              simp at hq
          · exact ih new_ip _ _ _ (by omega)
      · rw [newGo_stmts_nil memory auto (fuel + 1) ip labels origins nl
          (by omega)]
        exact List.chain'_nil

lemma newGo_covers (memory : List Nat) (auto : Bool) (fuel : Nat) :
    ∀ ip labels origins nl, memory.length ≤ ip + fuel →
      ∀ addr, ip ≤ addr → addr < memory.length →
        ∃ p ∈ (ImageMap.newGo memory auto fuel ip labels origins nl).stmts,
          p.1 ≤ addr ∧ addr < p.1 + itemWidth memory p.1 := by
  induction fuel with
  | zero => intro ip labels origins nl hfuel addr h1 h2; omega
  | succ fuel ih =>
      intro ip labels origins nl hfuel addr h1 h2
      have hip : ip < memory.length := by omega
      rw [ImageMap.newGo, if_pos hip]
      rcases hd : Instruction.decode memory ip with e | ⟨new_ip, instr⟩
      · simp only []
        by_cases haddr : addr < ip + 1
        · refine ⟨(ip, .Value (memory.getD ip 0)), by simp, h1, ?_⟩
          simp [itemWidth, hd]
          omega
        · obtain ⟨p, hp, hcov⟩ := ih (ip + 1) labels origins nl (by omega)
            addr (by omega) h2
          exact ⟨p, by simp [hp], hcov⟩
      · have hlt : ip < new_ip := decode_ok_lt memory ip _ hd
        simp only []
        by_cases haddr : addr < new_ip
        · refine ⟨(ip, .Instruction instr), by simp, h1, ?_⟩
          simp [itemWidth, hd]
          omega
        · obtain ⟨p, hp, hcov⟩ := ih new_ip
            (if auto then ImageMap.add_labels ip instr labels origins nl
              else (labels, origins, nl)).1
            (if auto then ImageMap.add_labels ip instr labels origins nl
              else (labels, origins, nl)).2.1
            (if auto then ImageMap.add_labels ip instr labels origins nl
              else (labels, origins, nl)).2.2
            (by omega) addr (by omega) h2
          exact ⟨p, by simp [hp], hcov⟩

lemma newGo_items (memory : List Nat) (auto : Bool) (fuel : Nat) :
    ∀ ip labels origins nl p,
      p ∈ (ImageMap.newGo memory auto fuel ip labels origins nl).stmts →
      (∀ n i, Instruction.decode memory p.1 = .ok (n, i) →
        p.2 = .Instruction i) ∧
      (∀ e, Instruction.decode memory p.1 = .error e →
        p.2 = .Value (memory.getD p.1 0)) := by
  induction fuel with
  | zero => intro ip labels origins nl p hp; simp [ImageMap.newGo] at hp
  | succ fuel ih =>
      intro ip labels origins nl p hp
      by_cases hip : ip < memory.length
      · rw [ImageMap.newGo, if_pos hip] at hp
        rcases hd : Instruction.decode memory ip with e | ⟨new_ip, instr⟩ <;>
          rw [hd] at hp <;> simp only [] at hp <;>
          rcases List.mem_cons.mp hp with hph | hpt
        · rw [hph]
          constructor
          · intro n i hdi
            rw [hd] at hdi
            exact absurd hdi (by simp)
          · intro e2 _
            rfl
        · exact ih _ _ _ _ p hpt
        · rw [hph]
          constructor
          · intro n i hdi
            rw [hd] at hdi
            simp at hdi
            simp [hdi]
          · intro e2 hdi
            rw [hd] at hdi
            exact absurd hdi (by simp)
        · exact ih _ _ _ _ p hpt
      · rw [newGo_stmts_nil memory auto (fuel + 1) ip labels origins nl
          (by omega)] at hp
        simp at hp

/-- C7: the disassembly sweep starts at address 0; on a successful decode it
records an Instruction item and continues at the decoder's next address, on
failure it records the raw word as a Value item and advances by one; the
recorded addresses are strictly increasing and consecutive items abut
exactly, so the swept range is covered without gaps or overlaps. -/
theorem image_map_sweep_structure (memory : List Nat) (opts : DisAsmOpts) :
    ((ImageMap.new memory opts).stmts = [] ↔ memory = []) ∧
    (∀ p rest, (ImageMap.new memory opts).stmts = p :: rest → p.1 = 0) ∧
    List.Chain' (fun p q => q.1 = p.1 + itemWidth memory p.1)
      (ImageMap.new memory opts).stmts ∧
    List.Chain' (fun p q => p.1 < q.1) (ImageMap.new memory opts).stmts ∧
    (∀ addr, addr < memory.length →
      ∃ p ∈ (ImageMap.new memory opts).stmts,
        p.1 ≤ addr ∧ addr < p.1 + itemWidth memory p.1) ∧
    (∀ p, p ∈ (ImageMap.new memory opts).stmts →
      (∀ n i, Instruction.decode memory p.1 = .ok (n, i) →
        p.2 = .Instruction i) ∧
      (∀ e, Instruction.decode memory p.1 = .error e →
        p.2 = .Value (memory.getD p.1 0))) := by
  have hchain := newGo_chain memory opts.autolabel memory.length 0
    (opts.initial_labels.getD []) [] 0 (by omega)
  refine ⟨⟨?_, ?_⟩, ?_, hchain, ?_, ?_, ?_⟩
  · intro h
    by_contra hne
    have hpos : 0 < memory.length := List.length_pos.mpr hne
    obtain ⟨item, rest, hh⟩ := newGo_stmts_head memory opts.autolabel
      memory.length 0 (opts.initial_labels.getD []) [] 0 (by omega) hpos
    unfold ImageMap.new at h
    rw [hh] at h
    exact List.noConfusion h
  · intro h
    subst h
    rfl
  · intro p rest h
    rcases Nat.eq_zero_or_pos memory.length with hz | hpos
    · have hnil := newGo_stmts_nil memory opts.autolabel memory.length 0
        (opts.initial_labels.getD []) [] 0 (by omega)
      unfold ImageMap.new at h
      rw [hnil] at h
      exact List.noConfusion h
    · obtain ⟨item, rest2, hh⟩ := newGo_stmts_head memory opts.autolabel
        memory.length 0 (opts.initial_labels.getD []) [] 0 (by omega) hpos
      unfold ImageMap.new at h
      rw [hh] at h
      injection h with h1 h2
      rw [← h1]
  · refine hchain.imp ?_
    intro a b hab
    have := itemWidth_pos memory a.1
    omega
  · intro addr h
    exact newGo_covers memory opts.autolabel memory.length 0
      (opts.initial_labels.getD []) [] 0 (by omega) addr (Nat.zero_le addr) h
  · intro p hp
    exact newGo_items memory opts.autolabel memory.length 0
      (opts.initial_labels.getD []) [] 0 p hp

theorem image_map_sweep_structure_witness :
    ∃ p ∈ (ImageMap.new [21, 99999] ⟨true, false, none⟩).stmts,
      p.1 ≤ 1 ∧ 1 < p.1 + itemWidth [21, 99999] p.1 :=
  (image_map_sweep_structure [21, 99999] ⟨true, false, none⟩).2.2.2.2.1 1
    (by decide)

lemma entry_or_insert_preserves (labels : List (Nat × String)) (k : Nat)
    (m : String) (key : Nat) (val : String)
    (h : labels.lookup key = some val) :
    (entry_or_insert labels k m).1.lookup key = some val := by
  unfold entry_or_insert
  rcases hl : labels.lookup k with _ | v
  · simp only []
    have hne : (key == k) = false := by
      by_cases hk : key = k
      · subst hk
        rw [h] at hl
        exact Option.noConfusion hl
      · simp [hk]
    simp [List.lookup, hne, h]
  · simp only []
    exact h

lemma add_labels_preserves (ip : Nat) (instr : Instruction)
    (labels : List (Nat × String)) (origins : List Nat) (nl : Nat)
    (key : Nat) (val : String) (h : labels.lookup key = some val) :
    (ImageMap.add_labels ip instr labels origins nl).1.lookup key =
      some val := by
  unfold ImageMap.add_labels
  cases instr <;> try exact h
  case Jmp tgt =>
    cases tgt with
    | Immediate dst => exact entry_or_insert_preserves labels dst _ key val h
    | Register r => exact h
  case Jt cond tgt =>
    cases tgt with
    | Immediate dst => exact entry_or_insert_preserves labels dst _ key val h
    | Register r => exact h
  case Jf cond tgt =>
    cases tgt with
    | Immediate dst => exact entry_or_insert_preserves labels dst _ key val h
    | Register r => exact h
  case Call tgt =>
    cases tgt with
    | Immediate dst => exact entry_or_insert_preserves labels dst _ key val h
    | Register r => exact h

lemma newGo_labels_preserved (memory : List Nat) (auto : Bool) (fuel : Nat) :
    ∀ ip labels origins nl key val, labels.lookup key = some val →
      ((ImageMap.newGo memory auto fuel ip labels origins
        nl).labels).lookup key = some val := by
  induction fuel with
  | zero =>
      intro ip labels origins nl key val h
      exact h
  | succ fuel ih =>
      intro ip labels origins nl key val h
      by_cases hip : ip < memory.length
      · rw [ImageMap.newGo, if_pos hip]
        rcases hd : Instruction.decode memory ip with e | ⟨new_ip, instr⟩
        · simp only []
          exact ih (ip + 1) labels origins nl key val h
        · simp only []
          apply ih
          by_cases hauto : auto
          · rw [if_pos hauto]
            exact add_labels_preserves ip instr labels origins nl key val h
          · rw [if_neg hauto]
            exact h
      · rw [ImageMap.newGo, if_neg hip]
        exact h

/-- C8: auto-generated labels (`lbl<n>` for jump targets, `fn<n>` for call
targets) are assigned only to addresses with no existing label entry, so
every externally supplied seed label survives the sweep unchanged. -/
theorem seed_labels_never_overwritten (memory : List Nat)
    (opts : DisAsmOpts) (seeds : List (Nat × String))
    (hauto : opts.autolabel = true)
    (hseeds : opts.initial_labels = some seeds) (addr : Nat) (name : String)
    (h : seeds.lookup addr = some name) :
    (ImageMap.new memory opts).labels.lookup addr = some name := by
  unfold ImageMap.new
  rw [hseeds]
  exact newGo_labels_preserved memory opts.autolabel memory.length 0 seeds
    [] 0 addr name h

theorem seed_labels_never_overwritten_witness :
    (ImageMap.new [6, 3]
      ⟨true, false, some [(3, "start")]⟩).labels.lookup 3 = some "start" :=
  seed_labels_never_overwritten [6, 3] ⟨true, false, some [(3, "start")]⟩
    [(3, "start")] rfl rfl 3 "start" rfl

inductive TracerError where
  | VmError (e : Error)
  | IOFailure
deriving DecidableEq, Repr

inductive TracerOut where
  | ok (st : VmState)
  | err (e : TracerError)
  | panicked
deriving DecidableEq, Repr

/-- The tracer session state that `Tracer::step` touches: the engine, the
input cursor (buffer plus read position), the output buffer and the
cooperative interrupt flag.  The blocking `read_until` on stdin is modelled
by the `stdin_line` parameter of the functions below; terminal printing has
no effect on this state and is dropped. -/
structure Tracer where
  vm : Vm
  in_buf : List Nat
  in_pos : Nat
  out_buf : List Nat
  interrupt : Bool
deriving DecidableEq, Repr

structure TracerRes where
  out : TracerOut
  tracer : Tracer
deriving DecidableEq, Repr

/-- `Tracer::ensure_input`: when the cursor is exhausted, clear it, read one
line from stdin, then atomically swap the interrupt flag with `false`; a set
flag aborts with `false` (no input to run on).  Otherwise report whether
unconsumed input remains. -/
def Tracer.ensure_input (t : Tracer) (single_step : Bool)
    (stdin_line : List Nat) : Bool × Tracer :=
  if t.in_pos = t.in_buf.length then
    let t1 : Tracer := { t with in_pos := 0, in_buf := stdin_line }
    let old := t1.interrupt
    let t2 : Tracer := { t1 with interrupt := false }
    if old then (false, t2)
    else (decide (t2.in_pos < t2.in_buf.length), t2)
  else (decide (t.in_pos < t.in_buf.length), t)

/-- `Tracer::pump_output`: flush the output buffer to the terminal only when
it ends in a line feed. -/
def Tracer.pump_output (t : Tracer) : Tracer :=
  if t.out_buf.getLast? = some 10 then { t with out_buf := [] } else t

/-- `Tracer::step`: decode the next instruction; before an `In`, make sure a
line of input is available, aborting without executing when the interrupt
flag was raised while waiting; otherwise run one engine step on the cursor
and pump the output buffer. -/
def Tracer.step (t : Tracer) (single_step : Bool) (stdin_line : List Nat) :
    TracerRes :=
  match t.vm.decode_next with
  | .error e => ⟨.err (.VmError e), t⟩
  | .ok (_, instr) =>
    let exec : Tracer → TracerRes := fun t1 =>
      let s := t1.vm.step (t1.in_buf.drop t1.in_pos)
      let t2 : Tracer :=
        { t1 with
            vm := s.vm
            in_pos := t1.in_buf.length - s.input.length
            out_buf := t1.out_buf ++ s.output }
      match s.out with
      | .ok st => ⟨.ok st, t2.pump_output⟩
      | .err e => ⟨.err (.VmError e), t2⟩
      | .panicked => ⟨.panicked, t2⟩
    match instr with
    | .In _ =>
        let r := t.ensure_input single_step stdin_line
        if r.1 then exec r.2 else ⟨.ok .Running, r.2⟩
    | _ => exec t

/-- C9: when the interrupt flag is set while the tracer waits for input
before an `In` instruction, the pending instruction is not executed: the
engine state (memory, registers, stack, instruction pointer) is untouched,
the freshly read line stays fully buffered and unconsumed, the flag is
cleared, and the step reports `Running` back to the command loop. -/
theorem interrupt_preempts_pending_in (t : Tracer) (single_step : Bool)
    (line : List Nat) (n : Nat) (dst : DstOperand)
    (hbuf : t.in_pos = t.in_buf.length) (hint : t.interrupt = true)
    (hdec : t.vm.decode_next = .ok (n, .In dst)) :
    (t.step single_step line).out = .ok .Running ∧
    (t.step single_step line).tracer.vm = t.vm ∧
    (t.step single_step line).tracer.in_buf = line ∧
    (t.step single_step line).tracer.in_pos = 0 ∧
    (t.step single_step line).tracer.interrupt = false := by
  unfold Tracer.step
  rw [hdec]
  simp only []
  unfold Tracer.ensure_input
  rw [if_pos hbuf]
  simp [hint]

theorem interrupt_preempts_pending_in_witness :
    (Tracer.step
        ⟨⟨[20, 32768], [0, 0, 0, 0, 0, 0, 0, 0], 0, []⟩, [], 0, [], true⟩
        true [104, 10]).out = .ok .Running ∧
    (Tracer.step
        ⟨⟨[20, 32768], [0, 0, 0, 0, 0, 0, 0, 0], 0, []⟩, [], 0, [], true⟩
        true [104, 10]).tracer.vm =
      ⟨[20, 32768], [0, 0, 0, 0, 0, 0, 0, 0], 0, []⟩ ∧
    (Tracer.step
        ⟨⟨[20, 32768], [0, 0, 0, 0, 0, 0, 0, 0], 0, []⟩, [], 0, [], true⟩
        true [104, 10]).tracer.in_buf = [104, 10] ∧
    (Tracer.step
        ⟨⟨[20, 32768], [0, 0, 0, 0, 0, 0, 0, 0], 0, []⟩, [], 0, [], true⟩
        true [104, 10]).tracer.in_pos = 0 ∧
    (Tracer.step
        ⟨⟨[20, 32768], [0, 0, 0, 0, 0, 0, 0, 0], 0, []⟩, [], 0, [], true⟩
        true [104, 10]).tracer.interrupt = false :=
  interrupt_preempts_pending_in
    ⟨⟨[20, 32768], [0, 0, 0, 0, 0, 0, 0, 0], 0, []⟩, [], 0, [], true⟩
    true [104, 10] 2 (.Register 0) rfl rfl (by decide)

end SynacorVm
